import Mathlib

/-!
Verification of the code-index-mcp core against its specification.

The definitions below are a shallow embedding of the repository's Python
source:

* `ShallowIndexManager.find_files` and its glob compiler
  (src/code_index_mcp/indexing/shallow_index_manager.py),
* `FileDiscoveryService.find_files` and its validation
  (src/code_index_mcp/services/file_discovery_service.py),
* the Go parsing strategy (src/code_index_mcp/indexing/strategies/go_strategy.py),
* the Kotlin strategy's call registration and import scan
  (src/code_index_mcp/indexing/strategies/kotlin_strategy.py),
* the search pagination helper, modelled from the specification because
  `search_service.py` is not part of the sources under review.

Python primitives (`str.strip`, `str.splitlines`, substring `in`,
list slicing, dict iteration order) are embedded as executable Lean
functions whose semantics match CPython on the inputs the code handles.
-/

namespace CodeIndex

/-! ## Python string and list primitives -/

/-- The characters stripped by Python `str.strip()` on ASCII text. -/
def pyIsSpace (c : Char) : Bool :=
  c == ' ' || c == '\t' || c == '\n' || c == '\x0d' ||
    c == '\x0b' || c == '\x0c'

/-- Python `str.strip()`. -/
def pyStrip (s : String) : String :=
  String.mk (((s.data.dropWhile pyIsSpace).reverse.dropWhile pyIsSpace).reverse)

def listIsPrefix : List Char → List Char → Bool
  | [], _ => true
  | _ :: _, [] => false
  | a :: as, b :: bs => a == b && listIsPrefix as bs

/-- Python `s.startswith(pre)`. -/
def pyStartsWith (pre s : String) : Bool := listIsPrefix pre.data s.data

/-- Python `s.endswith(suf)`. -/
def pyEndsWith (suf s : String) : Bool :=
  listIsPrefix suf.data.reverse s.data.reverse

/-- Python slice `s[n:]`. -/
def pyDrop (s : String) (n : Nat) : String := String.mk (s.data.drop n)

/-- Python slice `s[:-n]` (for `n ≤ len` it removes the last `n` characters,
and yields the empty string otherwise, as in Python). -/
def pyDropRight (s : String) (n : Nat) : String :=
  String.mk (s.data.take (s.data.length - n))

/-- Substring search scanning every suffix, as Python `in` does. -/
def listIsInfix (needle : List Char) : List Char → Bool
  | [] => listIsPrefix needle []
  | c :: rest => listIsPrefix needle (c :: rest) || listIsInfix needle rest

/-- Python `needle in haystack` for strings. -/
def pyIn (needle haystack : String) : Bool :=
  listIsInfix needle.data haystack.data

/-- Python `c in s` for a single character. -/
def pyCharIn (c : Char) (s : String) : Bool := s.data.contains c

/-- Python `str.splitlines()`: splits at `\n`, `\r`, `\r\n` and the ASCII
vertical-tab and form-feed boundaries, drops a trailing empty segment. -/
def pySplitlinesAux : List Char → List Char → List String
  | [], acc => if acc.isEmpty then [] else [String.mk acc.reverse]
  | '\r' :: '\n' :: rest, acc => String.mk acc.reverse :: pySplitlinesAux rest []
  | '\r' :: rest, acc => String.mk acc.reverse :: pySplitlinesAux rest []
  | '\n' :: rest, acc => String.mk acc.reverse :: pySplitlinesAux rest []
  | '\x0b' :: rest, acc => String.mk acc.reverse :: pySplitlinesAux rest []
  | '\x0c' :: rest, acc => String.mk acc.reverse :: pySplitlinesAux rest []
  | c :: rest, acc => pySplitlinesAux rest (c :: acc)

def pySplitlines (s : String) : List String := pySplitlinesAux s.data []

/-- Python list deduplication loop keeping first occurrences
(`for item in results: if item not in seen: ...`). -/
def pyDedupAux [DecidableEq α] : List α → List α → List α
  | [], _ => []
  | x :: xs, seen =>
    if x ∈ seen then pyDedupAux xs seen
    else x :: pyDedupAux xs (x :: seen)

def pyDedup [DecidableEq α] (l : List α) : List α := pyDedupAux l []

/-- Python dict `get` on an insertion-ordered association list. -/
def pyDictGet [DecidableEq κ] (d : List (κ × β)) (k : κ) : Option β :=
  match d.find? (fun kv => kv.1 == k) with
  | some kv => some kv.2
  | none => none

/-- Python dict assignment `d[k] = v`: overwrite in place or append. -/
def pyDictSet [DecidableEq κ] (d : List (κ × β)) (k : κ) (v : β) : List (κ × β) :=
  match d with
  | [] => [(k, v)]
  | (k', v') :: rest =>
    if k' = k then (k, v) :: rest else (k', v') :: pyDictSet rest k v

/-- Python slice `l[:k]` for an integer `k` (negative counts from the end). -/
def pySliceTo (l : List α) (k : Int) : List α :=
  if 0 ≤ k then l.take k.toNat
  else l.take ((l.length : Int) + k).toNat

/-! ## Data model

Modelled from the spec: `SymbolInfo` and `FileInfo` live in
`indexing/models.py`, which is not among the sources under review; the
fields follow §3 of the specification and their uses in the strategies. -/

structure SymbolInfo where
  type : String
  file : String
  line : Nat
  signature : Option String := none
  docstring : Option String := none
  called_by : List String := []
deriving Repr, DecidableEq

structure FileInfo where
  language : String
  line_count : Nat
  functions : List String
  classes : List String
  imports : List String
  package : Option String := none
  pending_calls : List (String × String) := []
deriving Repr, DecidableEq

/-- Modelled from the spec: `ParsingStrategy._create_symbol_id` in
`base_strategy.py` (not under review) produces
`"<relative_path>::<qualified_name>"` per §3 of the specification. -/
def mkSymbolId (filePath name : String) : String :=
  filePath ++ "::" ++ name

/-- Python `symbol_id.split("::")`, the left-to-right non-overlapping
split on the two-character separator. -/
def splitColonsAux : List Char → List Char → List String
  | ':' :: ':' :: rest, acc => String.mk acc.reverse :: splitColonsAux rest []
  | c :: rest, acc => splitColonsAux rest (c :: acc)
  | [], acc => [String.mk acc.reverse]

/-- Python `symbol_id.split("::")[-1]`. -/
def lastSegment (s : String) : String :=
  (splitColonsAux s.data []).getLastD s

/-! ## Go parsing strategy (go_strategy.py)

The regexes of the strategy are deterministic on their alternatives (no
effective backtracking), so each is embedded as a scanner over character
lists.  Scanners whose recursion is not structural take a fuel argument;
every step consumes at least one character, so fuel `length + 1` is never
exhausted. -/

/-- Python regex `\w` on ASCII source text. -/
def isWordChar (c : Char) : Bool := c.isAlphanum || c == '_'

/-- Consume one `\w+` group: the maximal nonempty word run. -/
def parseWord (l : List Char) : Option (String × List Char) :=
  let w := l.takeWhile isWordChar
  if w.isEmpty then none else some (String.mk w, l.drop w.length)

/-- Consume `func\s+` at the start of a line (`re.match` anchoring). -/
def afterFuncWs (l : List Char) : Option (List Char) :=
  match l with
  | 'f' :: 'u' :: 'n' :: 'c' :: rest =>
    if (rest.takeWhile pyIsSpace).isEmpty then none
    else some (rest.dropWhile pyIsSpace)
  | _ => none

/-- Embeds `re.match` of `func\s+(\w+)\s*\(` — the function branch of
`GoParsingStrategy.parse_file`. -/
def matchFuncDecl (l : List Char) : Option String := do
  let rest ← afterFuncWs l
  let (name, rest1) ← parseWord rest
  match rest1.dropWhile pyIsSpace with
  | '(' :: _ => some name
  | _ => none

/-- Embeds `re.match` of `func\s+\([^)]+\)\s+(\w+)\s*\(` — the method
branch (nonempty receiver). -/
def matchMethodDecl (l : List Char) : Option String := do
  let rest ← afterFuncWs l
  match rest with
  | '(' :: inner =>
    let recv := inner.takeWhile (fun c => c != ')')
    if recv.isEmpty then none
    else
      match inner.drop recv.length with
      | ')' :: after =>
        if (after.takeWhile pyIsSpace).isEmpty then none
        else
          let (name, rest1) ← parseWord (after.dropWhile pyIsSpace)
          match rest1.dropWhile pyIsSpace with
          | '(' :: _ => some name
          | _ => none
      | _ => none
  | _ => none

/-- Embeds `re.match` of `func\s+(?:\([^)]*\)\s+)?(\w+)\s*\(` —
`GoParsingStrategy._extract_go_function_name` (receiver may be empty; a
failed optional group cannot be rescued because `(` is not a word
character). -/
def extractGoFunctionName (l : List Char) : Option String := do
  let rest ← afterFuncWs l
  match rest with
  | '(' :: inner =>
    let recv := inner.takeWhile (fun c => c != ')')
    match inner.drop recv.length with
    | ')' :: after =>
      if (after.takeWhile pyIsSpace).isEmpty then none
      else
        let (name, rest1) ← parseWord (after.dropWhile pyIsSpace)
        match rest1.dropWhile pyIsSpace with
        | '(' :: _ => some name
        | _ => none
    | _ => none
  | _ =>
    let (name, rest1) ← parseWord rest
    match rest1.dropWhile pyIsSpace with
    | '(' :: _ => some name
    | _ => none

/-- Embeds `re.match` of `type\s+\w+\s+<kw>\s*\{` combined with the name
extraction `type\s+(\w+)\s+<kw>` used by the struct and interface
branches (the extraction always succeeds when the check does, with the
same first word). -/
def matchTypeDecl (kw : String) (l : List Char) : Option String :=
  match l with
  | 't' :: 'y' :: 'p' :: 'e' :: rest =>
    if (rest.takeWhile pyIsSpace).isEmpty then none
    else do
      let (name, r1) ← parseWord (rest.dropWhile pyIsSpace)
      if (r1.takeWhile pyIsSpace).isEmpty then none
      else
        let r2 := r1.dropWhile pyIsSpace
        if listIsPrefix kw.data r2 then
          match (r2.drop kw.data.length).dropWhile pyIsSpace with
          | '{' :: _ => some name
          | _ => none
        else none
  | _ => none

/-- One attempt of the search for `import\s+"([^"]+)"` at the current
position. -/
def tryImportAt (l : List Char) : Option String :=
  match l with
  | 'i' :: 'm' :: 'p' :: 'o' :: 'r' :: 't' :: rest =>
    if (rest.takeWhile pyIsSpace).isEmpty then none
    else
      match rest.dropWhile pyIsSpace with
      | '"' :: body =>
        let content := body.takeWhile (fun c => c != '"')
        if content.isEmpty then none
        else
          match body.drop content.length with
          | '"' :: _ => some (String.mk content)
          | _ => none
      | _ => none
  | _ => none

/-- Embeds `re.search` of `import\s+"([^"]+)"`: leftmost match. -/
def searchImportQuotedF : Nat → List Char → Option String
  | 0, _ => none
  | _ + 1, [] => none
  | fuel + 1, c :: rest =>
    match tryImportAt (c :: rest) with
    | some v => some v
    | none => searchImportQuotedF fuel rest

def searchImportQuoted (l : List Char) : Option String :=
  searchImportQuotedF (l.length + 1) l

/-- One attempt of the search for `"([^"]+)"` at the current position. -/
def tryQuotedAt (l : List Char) : Option String :=
  match l with
  | '"' :: body =>
    let content := body.takeWhile (fun c => c != '"')
    if content.isEmpty then none
    else
      match body.drop content.length with
      | '"' :: _ => some (String.mk content)
      | _ => none
  | _ => none

/-- Embeds `re.search` of `"([^"]+)"`: leftmost nonempty quoted string. -/
def searchQuotedF : Nat → List Char → Option String
  | 0, _ => none
  | _ + 1, [] => none
  | fuel + 1, c :: rest =>
    match tryQuotedAt (c :: rest) with
    | some v => some v
    | none => searchQuotedF fuel rest

def searchQuoted (l : List Char) : Option String :=
  searchQuotedF (l.length + 1) l

/-- Embeds `re.findall` of `(\w+)\s*\(`: a failed word run cannot match at
any inner start position (the character after the run is unchanged), so
the scan resumes after the run; a successful match resumes after `(`. -/
def findallCall1F : Nat → List Char → List String
  | 0, _ => []
  | _ + 1, [] => []
  | fuel + 1, c :: rest =>
    if isWordChar c then
      let w := (c :: rest).takeWhile isWordChar
      match ((c :: rest).drop w.length).dropWhile pyIsSpace with
      | '(' :: tail => String.mk w :: findallCall1F fuel tail
      | _ => findallCall1F fuel ((c :: rest).drop w.length)
    else findallCall1F fuel rest

/-- Embeds `re.findall` of `\.(\w+)\s*\(`. -/
def findallCall2F : Nat → List Char → List String
  | 0, _ => []
  | _ + 1, [] => []
  | fuel + 1, '.' :: rest =>
    (let w := rest.takeWhile isWordChar
     if w.isEmpty then findallCall2F fuel rest
     else
       match (rest.drop w.length).dropWhile pyIsSpace with
       | '(' :: tail => String.mk w :: findallCall2F fuel tail
       | _ => findallCall2F fuel rest)
  | fuel + 1, _ :: rest => findallCall2F fuel rest

/-- Embeds `GoParsingStrategy._extract_go_called_functions`: results of the
first pattern, then of the second. -/
def extractGoCalledFunctions (line : String) : List String :=
  findallCall1F (line.data.length + 1) line.data ++
    findallCall2F (line.data.length + 1) line.data

/-- Python `s.split(sep)` (non-overlapping, left to right). -/
def splitSegAuxF (sep : List Char) : Nat → List Char → List Char → List (List Char)
  | _, [], acc => [acc.reverse]
  | 0, l, acc => [acc.reverse ++ l]
  | fuel + 1, c :: rest, acc =>
    if !sep.isEmpty && listIsPrefix sep (c :: rest) then
      acc.reverse :: splitSegAuxF sep fuel ((c :: rest).drop sep.length) []
    else splitSegAuxF sep fuel rest (c :: acc)

def pySplitStr (sep s : String) : List String :=
  (splitSegAuxF sep.data (s.data.length + 1) s.data []).map String.mk

/-- Python `'\n'.join(lines)`. -/
def joinNewline : List String → String
  | [] => ""
  | [x] => x
  | x :: rest => x ++ "\n" ++ joinNewline rest

/-- Inner loop of `_extract_go_comment` for a `*/` block: walk further
back collecting stripped lines until a line starting `/*`; if none is
found the collected lines are discarded. -/
def goMultiComment : List String → List String → Option (List String)
  | [], _ => none
  | l :: rest, temp =>
    let ts := pyStrip l
    if pyStartsWith "/*" ts then some (pyStrip (pyDrop ts 2) :: temp)
    else goMultiComment rest (ts :: temp)

/-- Backward scan of `_extract_go_comment` over the lines before the
declaration (given reversed), accumulating comment lines in order. -/
def goCommentScan : List String → List String → List String
  | [], acc => acc
  | l :: rest, acc =>
    let s := pyStrip l
    if s = "" then acc
    else if pyStartsWith "//" s then
      goCommentScan rest (pyStrip (pyDrop s 2) :: acc)
    else if pyStartsWith "/*" s || pyEndsWith "*/" s then
      if pyStartsWith "/*" s && pyEndsWith "*/" s then
        goCommentScan rest (pyStrip (pyDropRight (pyDrop s 2) 2) :: acc)
      else if pyEndsWith "*/" s then
        match goMultiComment rest [pyStrip (pyDropRight s 2)] with
        | some temp => temp ++ acc
        | none => acc
      else acc
    else acc

/-- Embeds `GoParsingStrategy._extract_go_comment lines line_index`. -/
def extractGoComment (lines : List String) (i : Nat) : Option String :=
  let cl := goCommentScan (lines.take i).reverse []
  if cl = [] then none
  else
    let d := joinNewline cl
    if d = "" then none else some d

/-- The accumulator of the `parse_file` line loop. -/
structure GoParseSt where
  symbols : List (String × SymbolInfo)
  functions : List String
  classes : List String
  imports : List String
  package : Option String
  inImportBlock : Bool
deriving Repr, DecidableEq

/-- One iteration of the `parse_file` loop (the `elif` chain). -/
def goParseLine (filePath : String) (lines : List String) (st : GoParseSt)
    (i : Nat) (rawLine : String) : GoParseSt :=
  let line := pyStrip rawLine
  if pyStartsWith "package " line then
    { st with package := some (pyStrip ((pySplitStr "package " line).getD 1 "")) }
  else if pyStartsWith "import " line then
    match searchImportQuoted line.data with
    | some imp => { st with imports := st.imports ++ [imp] }
    | none =>
      if pyCharIn '(' line then { st with inImportBlock := true } else st
  else if st.inImportBlock then
    if pyCharIn ')' line then { st with inImportBlock := false }
    else
      match searchQuoted line.data with
      | some imp => { st with imports := st.imports ++ [imp] }
      | none => st
  else if pyStartsWith "func " line then
    let st1 :=
      match matchFuncDecl line.data with
      | some name =>
        { st with
            symbols := pyDictSet st.symbols (mkSymbolId filePath name)
              ⟨"function", filePath, i + 1, some line, extractGoComment lines i, []⟩,
            functions := st.functions ++ [name] }
      | none => st
    match matchMethodDecl line.data with
    | some name =>
      { st1 with
          symbols := pyDictSet st1.symbols (mkSymbolId filePath name)
            ⟨"method", filePath, i + 1, some line, extractGoComment lines i, []⟩,
          functions := st1.functions ++ [name] }
    | none => st1
  else
    match matchTypeDecl "struct" line.data with
    | some name =>
      { st with
          symbols := pyDictSet st.symbols (mkSymbolId filePath name)
            ⟨"struct", filePath, i + 1, none, extractGoComment lines i, []⟩,
          classes := st.classes ++ [name] }
    | none =>
      match matchTypeDecl "interface" line.data with
      | some name =>
        { st with
            symbols := pyDictSet st.symbols (mkSymbolId filePath name)
              ⟨"interface", filePath, i + 1, none, extractGoComment lines i, []⟩,
            classes := st.classes ++ [name] }
      | none => st

/-- The inner double loop of `_analyze_go_calls` for one called name:
append the caller to every symbol whose simple name contains the called
name as a substring, unless already present. -/
def goRegisterCalled (cur cf : String) (syms : List (String × SymbolInfo)) :
    List (String × SymbolInfo) :=
  syms.map fun kv =>
    if pyIn cf (lastSegment kv.1) && !(kv.2.called_by.contains cur) then
      (kv.1, { kv.2 with called_by := kv.2.called_by ++ [cur] })
    else kv

/-- The loop state of `_analyze_go_calls`: the symbol table, the current
function id and the `is_function_declaration_line` flag. -/
structure GoCallSt where
  syms : List (String × SymbolInfo)
  cur : Option String
  isDecl : Bool
deriving Repr, DecidableEq

/-- The `current_function` / `is_function_declaration_line` update of one
`_analyze_go_calls` iteration.  A `func ` line whose name extraction
fails leaves both unchanged, as in the source. -/
def goCallCd (filePath : String) (st : GoCallSt) (line : String) :
    Option String × Bool :=
  if pyStartsWith "func " line then
    match extractGoFunctionName line.data with
    | some n => (some (mkSymbolId filePath n), true)
    | none => (st.cur, st.isDecl)
  else (st.cur, false)

/-- The symbol-table update of one `_analyze_go_calls` iteration: with a
current function and off the declaration line, register every called name
found on a line containing `(` and `)`. -/
def goCallSyms (line : String) (st : GoCallSt) (cd : Option String × Bool) :
    List (String × SymbolInfo) :=
  match cd.1 with
  | some c =>
    if !cd.2 && pyCharIn '(' line && pyCharIn ')' line then
      (extractGoCalledFunctions line).foldl
        (fun s cf => goRegisterCalled c cf s) st.syms
    else st.syms
  | none => st.syms

/-- One iteration of `_analyze_go_calls`. -/
def goCallLine (filePath : String) (st : GoCallSt) (rawLine : String) : GoCallSt :=
  let line := pyStrip rawLine
  let cd := goCallCd filePath st line
  ⟨goCallSyms line st cd, cd.1, cd.2⟩

/-- Embeds `GoParsingStrategy._analyze_go_calls`. -/
def goAnalyzeCalls (content : String) (syms : List (String × SymbolInfo))
    (filePath : String) : List (String × SymbolInfo) :=
  ((pySplitlines content).foldl (goCallLine filePath) ⟨syms, none, false⟩).syms

/-- Embeds `GoParsingStrategy.parse_file`. -/
def goParseFile (filePath content : String) :
    List (String × SymbolInfo) × FileInfo :=
  let lines := pySplitlines content
  let st := lines.enum.foldl
    (fun s (p : Nat × String) => goParseLine filePath lines s p.1 p.2)
    ⟨[], [], [], [], none, false⟩
  let symbols := goAnalyzeCalls content st.symbols filePath
  (symbols, ⟨"go", lines.length, st.functions, st.classes, st.imports, st.package, []⟩)

/-- The symbol ids of all names extractable from `func ` header lines of
a file — the only values `_analyze_go_calls` ever uses as callers. -/
def goDeclaredIds (filePath content : String) : List String :=
  (pySplitlines content).filterMap fun l =>
    if pyStartsWith "func " (pyStrip l) then
      (extractGoFunctionName (pyStrip l).data).map (mkSymbolId filePath)
    else none

/-! ## Shallow index manager (shallow_index_manager.py) -/

/-- Result of `ShallowIndexManager.find_files`; `match_type` is one of the
string literals of the Python dataclass. -/
structure FileSearchResult where
  files : List String
  match_type : String
  original_pattern : String
  applied_pattern : String
deriving Repr, DecidableEq

/-- The mutable fields of `ShallowIndexManager`.  The `JSONIndexBuilder`
held in `index_builder` is external to the sources under review; it is
represented by the project path it was constructed with. -/
structure MState where
  project_path : Option String := none
  index_builder : Option String := none
  temp_dir : Option String := none
  index_path : Option String := none
  file_list : Option (List String) := none
deriving Repr, DecidableEq

/-- A Python value passed as the `pattern` argument: either a string or a
non-string (whose `str()` rendering is carried for `original_pattern`). -/
inductive PyPattern where
  | str (s : String)
  | nonstr (rendering : String)
deriving Repr, DecidableEq

/-- Tokens of the regexes produced by `_compile_glob_regex`: `**` becomes
`.*`, `*` becomes `[^/]*`, `?` becomes `[^/]`, every other character
(escaped if a regex metacharacter) is a literal. -/
inductive GlobTok where
  | deep
  | star
  | qmark
  | lit (c : Char)
deriving Repr, DecidableEq

/-- The token scan of `_compile_glob_regex` (escaping a metacharacter
still yields a literal token, so escapes need not be represented). -/
def compileGlob : List Char → List GlobTok
  | [] => []
  | '*' :: '*' :: rest => .deep :: compileGlob rest
  | '*' :: rest => .star :: compileGlob rest
  | '?' :: rest => .qmark :: compileGlob rest
  | c :: rest => .lit c :: compileGlob rest

/-- Character comparison under optional `re.IGNORECASE`. -/
def charEq (ci : Bool) (a b : Char) : Bool :=
  if ci then a.toLower == b.toLower else a == b

/-- Matching a full string against the compiled pattern, i.e.
`re.compile('^' + body + '$').match(s)` (file paths contain no newline,
so `$` is end of string). -/
def globMatch (ci : Bool) : List GlobTok → List Char → Bool
  | [], [] => true
  | [], _ :: _ => false
  | .deep :: ts, s =>
    globMatch ci ts s ||
      (match s with
       | [] => false
       | _ :: rest => globMatch ci (.deep :: ts) rest)
  | .star :: ts, s =>
    globMatch ci ts s ||
      (match s with
       | [] => false
       | c :: rest => c != '/' && globMatch ci (.star :: ts) rest)
  | .qmark :: _, [] => false
  | .qmark :: ts, c :: rest => c != '/' && globMatch ci ts rest
  | .lit _ :: _, [] => false
  | .lit a :: ts, c :: rest => charEq ci a c && globMatch ci ts rest
termination_by ts s => (ts.length, s.length)

/-- Whether a stored path matches the glob `pat` under `_compile_glob_regex`. -/
def globMatches (ci : Bool) (pat : String) (f : String) : Bool :=
  globMatch ci (compileGlob pat.data) f.data

/-- Embeds `[f for f in files if regex.match(f) is not None]`. -/
def globFilter (ci : Bool) (pat : String) (files : List String) : List String :=
  files.filter (globMatches ci pat)

/-- Python replace of a double backslash by a slash: each non-overlapping
pair of backslashes, scanned left to right, becomes one slash. -/
def replaceDoubleBackslash : List Char → List Char
  | '\\' :: '\\' :: rest => '/' :: replaceDoubleBackslash rest
  | c :: rest => c :: replaceDoubleBackslash rest
  | [] => []

/-- Python replace of a single backslash by a slash. -/
def replaceBackslash (l : List Char) : List Char :=
  l.map fun c => if c == '\\' then '/' else c

/-- Pattern normalization inside `find_files`:
`(pattern.strip() or "*")` with double then single backslashes replaced
by slashes, followed by stripping a leading `./`. -/
def normPattern (p : String) : String :=
  let base := if pyStrip p = "" then "*" else pyStrip p
  let replaced := String.mk (replaceBackslash (replaceDoubleBackslash base.data))
  if pyStartsWith "./" replaced then pyDrop replaced 2 else replaced

/-- Embeds `ShallowIndexManager.find_files`, as a state transformer (the method
only reads `self`, so every `return` yields the entry state). -/
def findFilesM (st : MState) (pattern : PyPattern) : FileSearchResult × MState :=
  match pattern with
  | .nonstr rendering => (⟨[], "invalid", rendering, ""⟩, st)
  | .str p =>
    let norm := normPattern p
    let files := st.file_list.getD []
    if norm = "*" then
      (⟨files, "all", p, "*"⟩, st)
    else
      let results := globFilter false norm files
      if results ≠ [] then
        (⟨results, "exact", p, norm⟩, st)
      else if ¬ (pyCharIn '/' norm) ∧ ¬ pyStartsWith "**/" norm then
        let lenient := "**/" ++ norm
        let recResults := globFilter false lenient files
        if recResults ≠ [] then
          (⟨recResults, "recursive", p, lenient⟩, st)
        else
          let ciRoot := globFilter true norm files
          if ciRoot ≠ [] then
            (⟨ciRoot, "case_insensitive_root", p, norm ++ " (case-insensitive)"⟩, st)
          else
            let ciRec := globFilter true lenient files
            if ciRec ≠ [] then
              (⟨ciRec, "case_insensitive_recursive", p,
                lenient ++ " (case-insensitive)"⟩, st)
            else
              (⟨[], "no_match", p, norm⟩, st)
      else
        (⟨[], "no_match", p, norm⟩, st)

/-- The value returned by `ShallowIndexManager.find_files`. -/
def findFiles (st : MState) (pattern : PyPattern) : FileSearchResult :=
  (findFilesM st pattern).1

/-- Embeds `ShallowIndexManager.get_file_list`, as a state transformer
(`list(self._file_list or [])`). -/
def getFileListM (st : MState) : List String × MState :=
  (st.file_list.getD [], st)

/-- A query against the manager, for reasoning about call sequences. -/
inductive ManagerQuery where
  | find (pattern : PyPattern)
  | fileList
deriving Repr, DecidableEq

/-- The state reached after running one query. -/
def runQuery (st : MState) : ManagerQuery → MState
  | .find pattern => (findFilesM st pattern).2
  | .fileList => (getFileListM st).2

/-- The state reached after running a sequence of queries. -/
def runQueries (st : MState) (qs : List ManagerQuery) : MState :=
  qs.foldl runQuery st

/-! ## File discovery service (file_discovery_service.py) -/

/-- The `max_results` step of `FileDiscoveryService.find_files`:
`if max_results and len(search_result.files) > max_results:` replace the
files with `search_result.files[:max_results]`.  `max_results` is `None`
or an arbitrary Python integer (zero is falsy). -/
def applyMaxResults (r : FileSearchResult) (maxResults : Option Int) : FileSearchResult :=
  match maxResults with
  | none => r
  | some m =>
    if m ≠ 0 ∧ (r.files.length : Int) > m then
      { r with files := pySliceTo r.files m }
    else r

/-- Embeds `FileDiscoveryService.find_files`.  The `initialized` flag stands for
`_require_project_setup` succeeding.  Modelled from the spec:
`BaseService._require_project_setup` lives in `base_service.py`, which is
not among the sources under review; per §4.5 it "validates that a project
is initialized ... (raises a validation error otherwise)".  The pattern
check `if not pattern or not pattern.strip()` is from the source. -/
def serviceFindFiles (initialized : Bool) (st : MState) (pattern : String)
    (maxResults : Option Int) : Except String FileSearchResult :=
  if ¬ initialized then
    .error "Project not set up"
  else if pyStrip pattern = "" then
    .error "Search pattern cannot be empty"
  else
    .ok (applyMaxResults (findFiles st (.str pattern)) maxResults)

/-! ## Kotlin parsing strategy (kotlin_strategy.py)

Tree-sitter traversal is an external parser; what is embedded is the
call-registration decision `_register_call` (the code cited by the
call-resolution rules) and the lexical import scan
`_extract_kotlin_imports_fallback`. -/

/-- The traversal context fields `_register_call` reads and writes.  The
Python `set` `pending_call_set` is represented by a list queried by
membership. -/
structure KotlinContext where
  symbols : List (String × SymbolInfo)
  symbol_lookup : List (String × String)
  pending_calls : List (String × String)
  pending_call_set : List (String × String)
deriving Repr, DecidableEq

/-- Embeds `symbol_info = context.symbols.get(sid)` followed by the guarded
`called_by.append(caller)`: the entry keyed `sid`, if any, gains `caller`
unless already present. -/
def kotlinUpdateCalledBy (symbols : List (String × SymbolInfo))
    (sid caller : String) : List (String × SymbolInfo) :=
  symbols.map fun kv =>
    if kv.1 = sid then
      if kv.2.called_by.contains caller then kv
      else (kv.1, { kv.2 with called_by := kv.2.called_by ++ [caller] })
    else kv

/-- The lookup keys ending in `"." + called`, in iteration order
(`[sid for name, sid in context.symbol_lookup.items() if name.endswith(suffix)]`). -/
def kotlinSuffixMatches (lookup : List (String × String)) (called : String) :
    List String :=
  lookup.filterMap fun nv =>
    if pyEndsWith ("." ++ called) nv.1 then some nv.2 else none

/-- Embeds `KotlinParsingStrategy._register_call`. -/
def kotlinRegisterCall (ctx : KotlinContext) (caller called : String) :
    KotlinContext :=
  match pyDictGet ctx.symbol_lookup called with
  | some sid => { ctx with symbols := kotlinUpdateCalledBy ctx.symbols sid caller }
  | none =>
    match kotlinSuffixMatches ctx.symbol_lookup called with
    | [sid] => { ctx with symbols := kotlinUpdateCalledBy ctx.symbols sid caller }
    | _ =>
      if (caller, called) ∈ ctx.pending_call_set then ctx
      else
        { ctx with
            pending_call_set := ctx.pending_call_set ++ [(caller, called)],
            pending_calls := ctx.pending_calls ++ [(caller, called)] }

/-- The separator regex `\s+as\s+` matching at the current position. -/
def matchAsSep (l : List Char) : Bool :=
  let ws := l.takeWhile pyIsSpace
  if ws.isEmpty then false
  else
    match l.drop ws.length with
    | 'a' :: 's' :: rest2 => !(rest2.takeWhile pyIsSpace).isEmpty
    | _ => false

/-- Embeds `re.split(r"\s+as\s+", value, maxsplit=1)[0]`: the prefix before the
leftmost separator match (the whole string when none). -/
def kotlinSplitAsF : Nat → List Char → List Char → String
  | 0, l, acc => String.mk (acc.reverse ++ l)
  | _ + 1, [], acc => String.mk acc.reverse
  | fuel + 1, c :: rest, acc =>
    if matchAsSep (c :: rest) then String.mk acc.reverse
    else kotlinSplitAsF fuel rest (c :: acc)

/-- The per-line value of an `import ` line in the fallback scan:
`stripped[len("import"):].strip()` with the alias dropped and stripped. -/
def kotlinImportLineValue (s : String) : String :=
  let value := pyStrip (pyDrop s 6)
  pyStrip (kotlinSplitAsF (value.data.length + 1) value.data [])

/-- The line loop of `_extract_kotlin_imports_fallback` producing the raw
`results` list (stops at the first code line). -/
def kotlinImportScan : List String → List String
  | [] => []
  | l :: rest =>
    let s := pyStrip l
    if pyStartsWith "import " s then
      let v := kotlinImportLineValue s
      if v = "" then kotlinImportScan rest else v :: kotlinImportScan rest
    else if pyStartsWith "package " s then kotlinImportScan rest
    else if s ≠ "" ∧ ¬ pyStartsWith "//" s ∧ ¬ pyStartsWith "/*" s ∧
        ¬ pyStartsWith "*" s then
      []
    else kotlinImportScan rest

/-- Embeds `KotlinParsingStrategy._extract_kotlin_imports_fallback`. -/
def kotlinImportsFallback (content : String) : List String :=
  pyDedup (kotlinImportScan (pySplitlines content))

/-! ## Search pagination helper

Modelled from the spec: `SearchService._paginate_results` lives in
`search_service.py`, which is not among the sources under review; the
definitions follow §4.6 of the specification and the expectations of
tests/search/test_search_service_pagination.py. -/

/-- Ordering of raw entries by path. -/
def byPath (a b : String × List (Nat × String)) : Prop := a.1 ≤ b.1

/-- Ordering of matches by line number. -/
def byLine (a b : Nat × String) : Prop := a.1 ≤ b.1

instance : DecidableRel byPath := fun a b => inferInstanceAs (Decidable (a.1 ≤ b.1))

instance : DecidableRel byLine := fun a b => inferInstanceAs (Decidable (a.1 ≤ b.1))

instance : IsTotal (String × List (Nat × String)) byPath := ⟨fun a b => le_total a.1 b.1⟩

instance : IsTrans (String × List (Nat × String)) byPath :=
  ⟨fun _ _ _ h1 h2 => le_trans h1 h2⟩

instance : IsTotal (Nat × String) byLine := ⟨fun a b => le_total a.1 b.1⟩

instance : IsTrans (Nat × String) byLine := ⟨fun _ _ _ h1 h2 => le_trans h1 h2⟩

/-- Modelled from the spec: flatten the raw map into rows ordered by
`(path ascending, line ascending)`. -/
def paginateRows (raw : List (String × List (Nat × String))) :
    List (String × Nat × String) :=
  (List.insertionSort byPath raw).flatMap fun pr =>
    (List.insertionSort byLine pr.2).map fun m => (pr.1, m.1, m.2)

/-- Lexicographic order on flattened rows. -/
def rowLe (a b : String × Nat × String) : Prop :=
  a.1 < b.1 ∨ (a.1 = b.1 ∧ a.2.1 ≤ b.2.1)

/-- The pagination record; `max_results` is present only when a limit was
applied. -/
structure PaginationInfo where
  total_matches : Nat
  returned : Nat
  start_index : Nat
  end_index : Nat
  has_more : Bool
  max_results : Option Nat := none
deriving Repr, DecidableEq

/-- Modelled from the spec: `SearchService._paginate_results` — slice
`[start_index, start_index + max_results)` with `None` meaning no limit,
`start_index` clipped at `total_matches`. -/
def paginateResults (raw : List (String × List (Nat × String))) (start : Nat)
    (maxResults : Option Nat) : List (String × Nat × String) × PaginationInfo :=
  let rows := paginateRows raw
  let total := rows.length
  let s := min start total
  let e := match maxResults with
    | none => total
    | some m => min (s + m) total
  let out := (rows.drop s).take (e - s)
  (out, ⟨total, out.length, s, e, decide (e < total), maxResults⟩)

/-! ## Supporting lemmas for the shallow manager -/

/-- The method `find_files` never mutates the manager: the state component of every
return site is the entry state. -/
theorem findFilesM_state (st : MState) (pattern : PyPattern) :
    (findFilesM st pattern).2 = st := by
  unfold findFilesM
  cases pattern with
  | nonstr rendering => rfl
  | str p =>
    dsimp only
    split_ifs <;> rfl

theorem runQuery_state (st : MState) (q : ManagerQuery) : runQuery st q = st := by
  cases q with
  | find pattern => exact findFilesM_state st pattern
  | fileList => rfl

/-! ## Claim C6: find_files returns a subsequence of the stored list -/

/-- C6: for every string pattern `p` and stored file list, the files
returned by `ShallowIndexManager.find_files(p)` form a subsequence of the
stored list: each returned path is stored, in the same relative order. -/
theorem claim6_files_sublist_of_stored (st : MState) (p : String) :
    (findFiles st (.str p)).files.Sublist (st.file_list.getD []) := by
  unfold findFiles findFilesM
  dsimp only
  split_ifs <;>
    first
      | exact List.Sublist.refl _
      | exact List.filter_sublist _
      | exact List.nil_sublist _

/-! ## Claim C10: find_files and get_file_list are pure queries -/

/-- C10: `find_files` (on any pattern, strings and non-strings alike) and
`get_file_list` leave every field of the manager unchanged, so any
sequence of such queries preserves the state and the observed file list. -/
theorem claim10_queries_pure (st : MState) (qs : List ManagerQuery) :
    runQueries st qs = st ∧ (getFileListM (runQueries st qs)).1 = (getFileListM st).1 := by
  have h : runQueries st qs = st := by
    induction qs generalizing st with
    | nil => rfl
    | cons q rest ih =>
      show runQueries (runQuery st q) rest = st
      rw [runQuery_state, ih]
  exact ⟨h, by rw [h]⟩

/-! ## Claim C8: the all-files patterns -/

/-- C8: `find_files` applied to `*`, to the empty string, or to any
whitespace-only string returns the full stored file list with
`match_type = "all"`. -/
theorem claim8_star_or_blank_returns_all (st : MState) (p : String)
    (h : pyStrip p = "" ∨ pyStrip p = "*") :
    findFiles st (.str p) =
      ⟨st.file_list.getD [], "all", p, "*"⟩ := by
  have hn : normPattern p = "*" := by
    unfold normPattern
    cases h with
    | inl h => rw [h]; rfl
    | inr h => rw [h]; rfl
  unfold findFiles findFilesM
  simp only [hn]
  rfl

/-! ## Claim C5: a pattern containing a path separator bypasses fallbacks -/

/-- C5: when the normalized pattern contains `/` and is not `*`,
`find_files` attempts only the exact case-sensitive full-path match:
the result is `exact` with the matching files when some file matches,
and otherwise `no_match` with an empty list — no recursive and no
case-insensitive fallback is applied. -/
theorem claim5_separator_bypasses_fallbacks (st : MState) (p : String)
    (h1 : normPattern p ≠ "*") (h2 : pyCharIn '/' (normPattern p) = true) :
    findFiles st (.str p) =
      (if globFilter false (normPattern p) (st.file_list.getD []) = []
       then ⟨[], "no_match", p, normPattern p⟩
       else ⟨globFilter false (normPattern p) (st.file_list.getD []),
             "exact", p, normPattern p⟩) := by
  simp only [findFiles, findFilesM]
  rw [if_neg h1]
  by_cases hres : globFilter false (normPattern p) (st.file_list.getD []) = []
  · rw [if_neg (not_not_intro hres), if_pos hres,
      if_neg (fun hand => hand.1 (by simp [h2]))]
  · rw [if_pos hres, if_neg hres]

theorem claim5_witness :
    findFiles { file_list := some ["src/a.py", "b.py"] } (.str "src/a.py") =
      (if globFilter false (normPattern "src/a.py")
            ((some ["src/a.py", "b.py"] : Option (List String)).getD []) = []
       then ⟨[], "no_match", "src/a.py", normPattern "src/a.py"⟩
       else ⟨globFilter false (normPattern "src/a.py")
               ((some ["src/a.py", "b.py"] : Option (List String)).getD []),
             "exact", "src/a.py", normPattern "src/a.py"⟩) :=
  claim5_separator_bypasses_fallbacks
    { file_list := some ["src/a.py", "b.py"] } "src/a.py" (by decide) (by decide)

/-! ## Claim C9: discovery service validation -/

/-- C9: `FileDiscoveryService.find_files` raises a validation error iff
the project is not initialized or the pattern trims to empty; otherwise
it delegates to the shallow manager (with the `max_results` step). -/
theorem claim9_validation_iff (init : Bool) (st : MState) (p : String)
    (mr : Option Int) :
    ((∃ e, serviceFindFiles init st p mr = .error e) ↔
        (init = false ∨ pyStrip p = ""))
    ∧ (init = true → pyStrip p ≠ "" →
        serviceFindFiles init st p mr =
          .ok (applyMaxResults (findFiles st (.str p)) mr)) := by
  unfold serviceFindFiles
  cases init with
  | false => simp
  | true => by_cases hp : pyStrip p = "" <;> simp [hp]

theorem claim9_witness :
    serviceFindFiles true { file_list := some ["x.py"] } "x.py" none =
      .ok (applyMaxResults
            (findFiles { file_list := some ["x.py"] } (.str "x.py")) none) :=
  (claim9_validation_iff true { file_list := some ["x.py"] } "x.py" none).2
    rfl (by decide)

/-! ## Claim C4: the max_results step of the discovery service -/

/-- C4, counterexample: with a negative `max_results` the claim requires
the files to be returned exactly as produced by the shallow manager, but
the service truncates them by Python slicing: the manager produces three
files for `*` while the service with `max_results = -1` returns two. -/
theorem claim4_counterexample :
    (findFiles { file_list := some ["a.py", "b.py", "c.py"] } (.str "*")).files
        = ["a.py", "b.py", "c.py"]
    ∧ serviceFindFiles true { file_list := some ["a.py", "b.py", "c.py"] }
        "*" (some (-1))
        = .ok ⟨["a.py", "b.py"], "all", "*", "*"⟩ :=
  ⟨rfl, rfl⟩

/-- C4, amended: the service truncates to the first `max_results` files
exactly when `max_results` is a positive integer smaller than the number
of matches; it returns the files unchanged when `max_results` is `None`,
zero, or at least the number of matches; and when `max_results` is
negative, Python slicing keeps all but the last `|max_results|` files.
`match_type` and the pattern fields are always preserved. -/
theorem claim4_amended_truncation (st : MState) (p : String) (mr : Option Int)
    (hp : pyStrip p ≠ "") :
    ∃ out, serviceFindFiles true st p mr = .ok out
      ∧ out.match_type = (findFiles st (.str p)).match_type
      ∧ out.original_pattern = (findFiles st (.str p)).original_pattern
      ∧ out.applied_pattern = (findFiles st (.str p)).applied_pattern
      ∧ ((mr = none ∨ mr = some 0 ∨
            ∃ k, mr = some k ∧ (((findFiles st (.str p)).files.length : Int) ≤ k)) →
          out.files = (findFiles st (.str p)).files)
      ∧ (∀ k : Int, mr = some k → 0 < k →
          k < ((findFiles st (.str p)).files.length : Int) →
          out.files = (findFiles st (.str p)).files.take k.toNat)
      ∧ (∀ k : Int, mr = some k → k < 0 →
          out.files = (findFiles st (.str p)).files.take
            ((((findFiles st (.str p)).files.length : Int)) + k).toNat) := by
  set r := findFiles st (.str p) with hr
  refine ⟨applyMaxResults r mr, ?_, ?_⟩
  · unfold serviceFindFiles
    rw [if_neg (by simp), if_neg (by simpa using hp)]
  unfold applyMaxResults
  cases mr with
  | none =>
    refine ⟨rfl, rfl, rfl, fun _ => rfl, ?_, ?_⟩ <;> intro k hk <;> exact absurd hk (by simp)
  | some m =>
    dsimp only
    by_cases hcond : m ≠ 0 ∧ (r.files.length : Int) > m
    · rw [if_pos hcond]
      refine ⟨rfl, rfl, rfl, ?_, ?_, ?_⟩
      · rintro (h | h | ⟨k, hk, hlen⟩)
        · exact absurd h (by simp)
        · exact absurd (Option.some.inj h) hcond.1
        · have h1 := hcond.2
          have h2 := Option.some.inj hk
          omega
      · intro k hk h0 _
        rw [← Option.some.inj hk] at h0 ⊢
        show pySliceTo r.files m = _
        unfold pySliceTo
        rw [if_pos (le_of_lt h0)]
      · intro k hk hneg
        rw [← Option.some.inj hk] at hneg ⊢
        show pySliceTo r.files m = _
        unfold pySliceTo
        rw [if_neg (by omega)]
    · rw [if_neg hcond]
      refine ⟨rfl, rfl, rfl, fun _ => rfl, ?_, ?_⟩
      · intro k hk h0 hlen
        rw [← Option.some.inj hk] at h0 hlen
        exact absurd ⟨by omega, by omega⟩ hcond
      · intro k hk hneg
        rw [← Option.some.inj hk] at hneg
        have : (r.files.length : Int) > m := by
          have := Int.ofNat_nonneg r.files.length
          omega
        exact absurd ⟨by omega, this⟩ hcond

theorem claim4_witness :
    pyStrip "*" ≠ "" ∧
    ∃ out, serviceFindFiles true { file_list := some ["a.py", "b.py", "c.py"] }
        "*" (some 2) = .ok out
      ∧ out.match_type = (findFiles { file_list := some ["a.py", "b.py", "c.py"] } (.str "*")).match_type
      ∧ out.original_pattern = (findFiles { file_list := some ["a.py", "b.py", "c.py"] } (.str "*")).original_pattern
      ∧ out.applied_pattern = (findFiles { file_list := some ["a.py", "b.py", "c.py"] } (.str "*")).applied_pattern
      ∧ ((some 2 = (none : Option Int) ∨ (some 2 : Option Int) = some 0 ∨
            ∃ k, (some 2 : Option Int) = some k ∧
              (((findFiles { file_list := some ["a.py", "b.py", "c.py"] } (.str "*")).files.length : Int) ≤ k)) →
          out.files = (findFiles { file_list := some ["a.py", "b.py", "c.py"] } (.str "*")).files)
      ∧ (∀ k : Int, (some 2 : Option Int) = some k → 0 < k →
          k < ((findFiles { file_list := some ["a.py", "b.py", "c.py"] } (.str "*")).files.length : Int) →
          out.files = (findFiles { file_list := some ["a.py", "b.py", "c.py"] } (.str "*")).files.take k.toNat)
      ∧ (∀ k : Int, (some 2 : Option Int) = some k → k < 0 →
          out.files = (findFiles { file_list := some ["a.py", "b.py", "c.py"] } (.str "*")).files.take
            ((((findFiles { file_list := some ["a.py", "b.py", "c.py"] } (.str "*")).files.length : Int)) + k).toNat) :=
  ⟨by decide,
    claim4_amended_truncation { file_list := some ["a.py", "b.py", "c.py"] }
      "*" (some 2) (by decide)⟩

theorem claim8_witness :
    (pyStrip "   " = "" ∨ pyStrip "   " = "*") ∧
      findFiles { file_list := some ["app.py", "src/users.py"] } (.str "   ") =
        ⟨["app.py", "src/users.py"], "all", "   ", "*"⟩ :=
  ⟨Or.inl (by decide),
    claim8_star_or_blank_returns_all
      { file_list := some ["app.py", "src/users.py"] } "   " (Or.inl (by decide))⟩

/-! ## Supporting lemmas for the Go call analysis -/

theorem foldl_mem_preserves {σ α : Type _} (f : σ → α → σ) (P : σ → Prop)
    (l : List α) :
    ∀ s : σ, (∀ s a, a ∈ l → P s → P (f s a)) → P s → P (l.foldl f s) := by
  induction l with
  | nil => intro s _ hs; exact hs
  | cons a rest ih =>
    intro s h hs
    exact ih (f s a) (fun s' b hb => h s' b (List.mem_cons_of_mem a hb))
      (h s a (List.mem_cons_self a rest) hs)

theorem pyDictSet_mem {κ β : Type _} [DecidableEq κ] (d : List (κ × β)) (k : κ)
    (v : β) : ∀ kv ∈ pyDictSet d k v, kv = (k, v) ∨ kv ∈ d := by
  induction d with
  | nil =>
    intro kv h
    simp only [pyDictSet, List.mem_singleton] at h
    exact Or.inl h
  | cons hd rest ih =>
    intro kv h
    rcases hd with ⟨k', v'⟩
    simp only [pyDictSet] at h
    by_cases hk : k' = k
    · rw [if_pos hk] at h
      rcases List.mem_cons.mp h with h | h
      · exact Or.inl h
      · exact Or.inr (List.mem_cons_of_mem _ h)
    · rw [if_neg hk] at h
      rcases List.mem_cons.mp h with h | h
      · exact Or.inr (by rw [h]; exact List.mem_cons_self _ _)
      · rcases ih kv h with h | h
        · exact Or.inl h
        · exact Or.inr (List.mem_cons_of_mem _ h)

/-- Every symbol created by the `parse_file` line loop starts with an
empty `called_by` list. -/
theorem goParseLine_called_by_nil (filePath : String) (lines : List String)
    (st : GoParseSt) (i : Nat) (rawLine : String)
    (h : ∀ sid info, (sid, info) ∈ st.symbols → info.called_by = []) :
    ∀ sid info, (sid, info) ∈ (goParseLine filePath lines st i rawLine).symbols →
      info.called_by = [] := by
  have hset : ∀ (syms : List (String × SymbolInfo)) (k : String) (nv : SymbolInfo),
      (∀ s2 i2, (s2, i2) ∈ syms → i2.called_by = []) → nv.called_by = [] →
      ∀ s2 i2, (s2, i2) ∈ pyDictSet syms k nv → i2.called_by = [] := by
    intro syms k nv hs hnv s2 i2 hm
    rcases pyDictSet_mem syms k nv _ hm with he | he
    · rw [(Prod.mk.injEq _ _ _ _).mp he |>.2]
      exact hnv
    · exact hs _ _ he
  intro sid info hmem
  unfold goParseLine at hmem
  dsimp only at hmem
  split at hmem
  · exact h sid info hmem
  split at hmem
  · split at hmem
    · exact h sid info hmem
    · split at hmem
      · exact h sid info hmem
      · exact h sid info hmem
  split at hmem
  · split at hmem
    · exact h sid info hmem
    · split at hmem
      · exact h sid info hmem
      · exact h sid info hmem
  split at hmem
  · split at hmem
    · split at hmem
      · exact hset _ _ _ (hset _ _ _ h rfl) rfl sid info hmem
      · exact hset _ _ _ h rfl sid info hmem
    · split at hmem
      · exact hset _ _ _ h rfl sid info hmem
      · exact h sid info hmem
  · split at hmem
    · exact hset _ _ _ h rfl sid info hmem
    · split at hmem
      · exact hset _ _ _ h rfl sid info hmem
      · exact h sid info hmem

/-- The accumulated symbol table of `parse_file` (before call analysis)
has only empty `called_by` lists. -/
theorem goParseFold_called_by_nil (filePath : String) (lines : List String) :
    ∀ sid info, (sid, info) ∈ (lines.enum.foldl
      (fun s (p : Nat × String) => goParseLine filePath lines s p.1 p.2)
      ⟨[], [], [], [], none, false⟩).symbols → info.called_by = [] :=
  foldl_mem_preserves _
    (fun st => ∀ sid info, (sid, info) ∈ st.symbols → info.called_by = [])
    lines.enum ⟨[], [], [], [], none, false⟩
    (fun s p _ hP => goParseLine_called_by_nil filePath lines s p.1 p.2 hP)
    (fun _ _ hm => absurd hm (List.not_mem_nil _))

/-- The update `goRegisterCalled` only ever appends the current caller, so it
preserves "every recorded caller belongs to `D`" whenever the current
caller does. -/
theorem goRegisterCalled_inv (D : List String) (cur cf : String)
    (syms : List (String × SymbolInfo)) (hcur : cur ∈ D)
    (h : ∀ sid info, (sid, info) ∈ syms → ∀ c ∈ info.called_by, c ∈ D) :
    ∀ sid info, (sid, info) ∈ goRegisterCalled cur cf syms →
      ∀ c ∈ info.called_by, c ∈ D := by
  intro sid info hmem c hc
  unfold goRegisterCalled at hmem
  rcases List.mem_map.mp hmem with ⟨⟨k, v⟩, hkv, heq⟩
  dsimp only at heq
  by_cases hcond : (pyIn cf (lastSegment k) && !(v.called_by.contains cur)) = true
  · rw [if_pos hcond] at heq
    cases heq
    rcases List.mem_append.mp hc with h1 | h1
    · exact h _ _ hkv c h1
    · rw [List.mem_singleton.mp h1]
      exact hcur
  · rw [if_neg hcond] at heq
    cases heq
    exact h _ _ hkv c hc

/-- The `current_function` produced by `goCallCd` always lies in
`goDeclaredIds` (given the line is one of the file's lines), or is
inherited. -/
theorem goCallCd_inv (filePath : String) (D : List String) (line : String)
    (hl : ∀ n, pyStartsWith "func " line = true →
      extractGoFunctionName line.data = some n → mkSymbolId filePath n ∈ D)
    (st : GoCallSt) (h1 : ∀ c, st.cur = some c → c ∈ D) :
    ∀ c, (goCallCd filePath st line).1 = some c → c ∈ D := by
  unfold goCallCd
  split_ifs with hf
  · cases hx : extractGoFunctionName line.data with
    | some n =>
      intro c hc
      obtain rfl : mkSymbolId filePath n = c :=
        Option.some.inj (show some (mkSymbolId filePath n) = some c from hc)
      exact hl n hf hx
    | none => exact h1
  · exact h1

/-- The update `goCallSyms` preserves the caller invariant. -/
theorem goCallSyms_inv (D : List String) (line : String) (st : GoCallSt)
    (cd : Option String × Bool) (hcd : ∀ c, cd.1 = some c → c ∈ D)
    (h2 : ∀ sid info, (sid, info) ∈ st.syms → ∀ c ∈ info.called_by, c ∈ D) :
    ∀ sid info, (sid, info) ∈ goCallSyms line st cd →
      ∀ c ∈ info.called_by, c ∈ D := by
  rcases cd with ⟨c1, c2⟩
  cases c1 with
  | none => exact h2
  | some cfun =>
    unfold goCallSyms
    split_ifs with hcall
    · exact foldl_mem_preserves _
        (fun s => ∀ sid info, (sid, info) ∈ s → ∀ c ∈ info.called_by, c ∈ D)
        _ st.syms
        (fun s cf _ hP => goRegisterCalled_inv D cfun cf s (hcd cfun rfl) hP)
        h2
    · exact h2

/-- Invariant of the `_analyze_go_calls` loop: callers recorded so far
and the current function id all come from `func ` header lines. -/
theorem goCallLine_inv (filePath : String) (D : List String) (rawLine : String)
    (hl : ∀ n, pyStartsWith "func " (pyStrip rawLine) = true →
      extractGoFunctionName (pyStrip rawLine).data = some n →
      mkSymbolId filePath n ∈ D)
    (st : GoCallSt)
    (h : (∀ c, st.cur = some c → c ∈ D) ∧
      (∀ sid info, (sid, info) ∈ st.syms → ∀ c ∈ info.called_by, c ∈ D)) :
    (∀ c, (goCallLine filePath st rawLine).cur = some c → c ∈ D) ∧
    (∀ sid info, (sid, info) ∈ (goCallLine filePath st rawLine).syms →
      ∀ c ∈ info.called_by, c ∈ D) := by
  have hcd := goCallCd_inv filePath D (pyStrip rawLine) hl st h.1
  exact ⟨hcd, goCallSyms_inv D (pyStrip rawLine) st _ hcd h.2⟩

/-- Every caller recorded by `_analyze_go_calls` on a table whose
`called_by` lists start empty is the id of a name extracted from some
`func ` header line of the file. -/
theorem goAnalyzeCalls_callers (filePath content : String)
    (syms : List (String × SymbolInfo))
    (hs : ∀ sid info, (sid, info) ∈ syms → info.called_by = []) :
    ∀ sid info, (sid, info) ∈ goAnalyzeCalls content syms filePath →
      ∀ c ∈ info.called_by, c ∈ goDeclaredIds filePath content := by
  have key := foldl_mem_preserves (goCallLine filePath)
    (fun st => (∀ c, st.cur = some c → c ∈ goDeclaredIds filePath content) ∧
      (∀ sid info, (sid, info) ∈ st.syms →
        ∀ c ∈ info.called_by, c ∈ goDeclaredIds filePath content))
    (pySplitlines content) ⟨syms, none, false⟩
    (fun s a ha hP => goCallLine_inv filePath _ a
      (fun n hf hx => List.mem_filterMap.mpr
        ⟨a, ha, by rw [if_pos hf, hx]; rfl⟩)
      s hP)
    ⟨fun c hc => absurd hc (by simp),
      fun sid info hm c hc => by
        rw [hs sid info hm] at hc
        exact absurd hc (List.not_mem_nil _)⟩
  exact key.2

/-! ## Claim C1: contents of called_by -/

/-- C1, counterexample: for the Go strategy, a function whose body calls
itself appears in its own `called_by` list (`"f.go::Add"` below), and a
malformed header (`func () Bad(`) yields a caller id that is not a key
of the index (`"f.go::Bad"`), refuting both the existence and the
`caller ≠ s.id` parts of the claim. -/
theorem claim1_counterexample :
    (goParseFile "f.go"
        "func () Bad( \x7b\nAdd()\nfunc Add(x int, y int) int \x7b\nreturn Add(x-1, y)\n\x7d").1 =
      [("f.go::Add",
        { type := "function", file := "f.go", line := 3,
          signature := some "func Add(x int, y int) int \x7b", docstring := none,
          called_by := ["f.go::Bad", "f.go::Add"] })] := by
  decide

/-- C1, amended: every caller recorded in a `called_by` list of the Go
strategy is the id `<file>::<name>` of a name extracted from some
`func ` header line of the same file (such an id can fail to be a key of
the index when the header is malformed); calls on a successfully parsed
declaration line itself are never recorded (second conjunct: an
analysis step on any line whose `func ` header parses leaves every
`called_by` list untouched, for every state), but a symbol whose body
calls itself does appear in its own `called_by`. -/
theorem claim1_amended_callers_from_headers (filePath content : String) :
    (∀ sid info, (sid, info) ∈ (goParseFile filePath content).1 →
      ∀ c ∈ info.called_by, c ∈ goDeclaredIds filePath content)
    ∧ (∀ (st : GoCallSt) (rawLine n : String),
        pyStartsWith "func " (pyStrip rawLine) = true →
        extractGoFunctionName (pyStrip rawLine).data = some n →
        (goCallLine filePath st rawLine).syms = st.syms) := by
  constructor
  · exact goAnalyzeCalls_callers filePath content _
      (goParseFold_called_by_nil filePath (pySplitlines content))
  · intro st rawLine n hf hx
    show goCallSyms (pyStrip rawLine) st (goCallCd filePath st (pyStrip rawLine))
      = st.syms
    have hcd : goCallCd filePath st (pyStrip rawLine) =
        (some (mkSymbolId filePath n), true) := by
      unfold goCallCd
      rw [if_pos hf, hx]
    rw [hcd]
    rfl

theorem claim1_witness :
    "g.go::Main" ∈ goDeclaredIds "g.go" "func Main() \x7b\nHelp()\n\x7d\nfunc Help() \x7b\n\x7d"
    ∧ (goCallLine "g.go" ⟨[("g.go::Add",
          { type := "function", file := "g.go", line := 1,
            signature := some "func Add() \x7b", docstring := none,
            called_by := [] })], none, false⟩ "func Add() \x7b").syms =
        [("g.go::Add",
          { type := "function", file := "g.go", line := 1,
            signature := some "func Add() \x7b", docstring := none,
            called_by := [] })] :=
  ⟨(claim1_amended_callers_from_headers "g.go"
      "func Main() \x7b\nHelp()\n\x7d\nfunc Help() \x7b\n\x7d").1
    "g.go::Help"
    { type := "function", file := "g.go", line := 4,
      signature := some "func Help() \x7b", docstring := none,
      called_by := ["g.go::Main"] }
    (by decide) "g.go::Main" (by decide),
   (claim1_amended_callers_from_headers "g.go" "").2
    ⟨[("g.go::Add",
        { type := "function", file := "g.go", line := 1,
          signature := some "func Add() \x7b", docstring := none,
          called_by := [] })], none, false⟩
    "func Add() \x7b" "Add" (by decide) (by decide)⟩

/-! ## Claim C2: call attachment rules -/

/-- Membership after the guarded `called_by.append` of `_register_call`:
an entry is unchanged or is the `sid`-keyed entry with the caller
appended. -/
theorem kotlinUpdateCalledBy_mem (symbols : List (String × SymbolInfo))
    (sid0 caller : String) :
    ∀ sid info, (sid, info) ∈ kotlinUpdateCalledBy symbols sid0 caller →
      (sid, info) ∈ symbols ∨
      (sid = sid0 ∧ ∃ old, (sid, old) ∈ symbols ∧
        info = { old with called_by := old.called_by ++ [caller] }) := by
  intro sid info hmem
  unfold kotlinUpdateCalledBy at hmem
  rcases List.mem_map.mp hmem with ⟨⟨k, v⟩, hkv, heq⟩
  dsimp only at heq
  by_cases hk : k = sid0
  · rw [if_pos hk] at heq
    by_cases hcb : v.called_by.contains caller = true
    · rw [if_pos hcb] at heq
      cases heq
      exact Or.inl hkv
    · rw [if_neg hcb] at heq
      cases heq
      exact Or.inr ⟨hk, v, hkv, rfl⟩
  · rw [if_neg hk] at heq
    cases heq
    exact Or.inl hkv

/-- C2, counterexample: the Go strategy attaches a caller by substring
containment.  The call `down()` inside `Main` is attached to `Teardown`
although no symbol has simple name `down` and no qualified name ends in
`.down` — `"down"` is merely a substring of `"Teardown"`. -/
theorem claim2_counterexample :
    (goParseFile "f.go" "func Teardown() \x7b\n\x7d\nfunc Main() \x7b\ndown()\n\x7d").1 =
      [("f.go::Teardown",
        { type := "function", file := "f.go", line := 1,
          signature := some "func Teardown() \x7b", docstring := none,
          called_by := ["f.go::Main"] }),
       ("f.go::Main",
        { type := "function", file := "f.go", line := 3,
          signature := some "func Main() \x7b", docstring := none,
          called_by := [] })]
    ∧ lastSegment "f.go::Teardown" ≠ "down"
    ∧ lastSegment "f.go::Main" ≠ "down"
    ∧ pyEndsWith ".down" "f.go::Teardown" = false
    ∧ pyEndsWith ".down" "f.go::Main" = false
    ∧ pyIn "down" "Teardown" = true := by
  decide

/-- Each entry of the Go symbol table is mapped by `goRegisterCalled` to
its guarded update. -/
theorem goRegisterCalled_apply (cur cf : String)
    (syms : List (String × SymbolInfo)) (sid : String) (old : SymbolInfo)
    (hmem : (sid, old) ∈ syms) :
    (if pyIn cf (lastSegment sid) && !(old.called_by.contains cur) then
      (sid, { old with called_by := old.called_by ++ [cur] })
    else (sid, old)) ∈ goRegisterCalled cur cf syms := by
  unfold goRegisterCalled
  exact List.mem_map_of_mem _ hmem

/-- C2, amended: the Kotlin strategy's `_register_call` attaches a caller
to a symbol only on an exact lookup hit or a unique `.name` suffix match
(first conjunct), and with neither it defers — symbols are untouched and
the call goes to the pending set and list, once (fourth conjunct); the
Go strategy instead attaches the caller to exactly those symbols whose
simple name contains the called name as a substring (second and third
conjuncts: change only under containment, and every containing symbol
ends up with the caller recorded), silently drops calls matching no
symbol (fifth conjunct), and its file info carries no pending calls
(sixth conjunct). -/
theorem claim2_amended_attachment (ctx : KotlinContext) (caller called : String)
    (syms : List (String × SymbolInfo)) (cur cf : String)
    (filePath content : String) :
    (∀ sid info, (sid, info) ∈ (kotlinRegisterCall ctx caller called).symbols →
      (sid, info) ∈ ctx.symbols ∨
      ∃ old, (sid, old) ∈ ctx.symbols
        ∧ info = { old with called_by := old.called_by ++ [caller] }
        ∧ (pyDictGet ctx.symbol_lookup called = some sid ∨
            (pyDictGet ctx.symbol_lookup called = none ∧
              kotlinSuffixMatches ctx.symbol_lookup called = [sid])))
    ∧ (∀ sid info, (sid, info) ∈ goRegisterCalled cur cf syms →
      (sid, info) ∈ syms ∨
      ∃ old, (sid, old) ∈ syms ∧ pyIn cf (lastSegment sid) = true
        ∧ info = { old with called_by := old.called_by ++ [cur] })
    ∧ (∀ sid old, (sid, old) ∈ syms → pyIn cf (lastSegment sid) = true →
        ∃ info, (sid, info) ∈ goRegisterCalled cur cf syms ∧ cur ∈ info.called_by)
    ∧ (pyDictGet ctx.symbol_lookup called = none →
        (∀ s, kotlinSuffixMatches ctx.symbol_lookup called ≠ [s]) →
        (kotlinRegisterCall ctx caller called).symbols = ctx.symbols
        ∧ ((caller, called) ∈ ctx.pending_call_set →
            kotlinRegisterCall ctx caller called = ctx)
        ∧ ((caller, called) ∉ ctx.pending_call_set →
            (kotlinRegisterCall ctx caller called).pending_calls =
              ctx.pending_calls ++ [(caller, called)]
            ∧ (kotlinRegisterCall ctx caller called).pending_call_set =
              ctx.pending_call_set ++ [(caller, called)]))
    ∧ ((∀ sid info, (sid, info) ∈ syms → pyIn cf (lastSegment sid) = false) →
        goRegisterCalled cur cf syms = syms)
    ∧ (goParseFile filePath content).2.pending_calls = [] := by
  refine ⟨?_, ?_, ?_, ?_, ?_, rfl⟩
  · intro sid info hmem
    unfold kotlinRegisterCall at hmem
    cases hg : pyDictGet ctx.symbol_lookup called with
    | some sid1 =>
      rw [hg] at hmem
      rcases kotlinUpdateCalledBy_mem ctx.symbols sid1 caller sid info hmem with
        h | ⟨hsid, old, hold, hinfo⟩
      · exact Or.inl h
      · exact Or.inr ⟨old, hold, hinfo, Or.inl (by rw [hsid])⟩
    | none =>
      rw [hg] at hmem
      cases hm : kotlinSuffixMatches ctx.symbol_lookup called with
      | nil =>
        rw [hm] at hmem
        split_ifs at hmem <;> exact Or.inl hmem
      | cons sid1 tl =>
        cases tl with
        | nil =>
          rw [hm] at hmem
          rcases kotlinUpdateCalledBy_mem ctx.symbols sid1 caller sid info hmem with
            h | ⟨hsid, old, hold, hinfo⟩
          · exact Or.inl h
          · exact Or.inr ⟨old, hold, hinfo, Or.inr ⟨rfl, by rw [hsid]⟩⟩
        | cons b rest =>
          rw [hm] at hmem
          split_ifs at hmem <;> exact Or.inl hmem
  · intro sid info hmem
    unfold goRegisterCalled at hmem
    rcases List.mem_map.mp hmem with ⟨⟨k, v⟩, hkv, heq⟩
    dsimp only at heq
    by_cases hcond : (pyIn cf (lastSegment k) && !(v.called_by.contains cur)) = true
    · rw [if_pos hcond] at heq
      cases heq
      exact Or.inr ⟨v, hkv, (Bool.and_eq_true _ _ |>.mp hcond).1, rfl⟩
    · rw [if_neg hcond] at heq
      cases heq
      exact Or.inl hkv
  · intro sid old hmem hsub
    have h := goRegisterCalled_apply cur cf syms sid old hmem
    cases hcb : old.called_by.contains cur with
    | true =>
      have hcond : (pyIn cf (lastSegment sid) && !(old.called_by.contains cur))
          = false := by rw [hsub, hcb]; rfl
      rw [if_neg (by rw [hcond]; decide)] at h
      refine ⟨old, h, ?_⟩
      simpa using hcb
    | false =>
      have hcond : (pyIn cf (lastSegment sid) && !(old.called_by.contains cur))
          = true := by rw [hsub, hcb]; rfl
      rw [if_pos hcond] at h
      exact ⟨{ old with called_by := old.called_by ++ [cur] }, h,
        List.mem_append_right _ (List.mem_singleton_self _)⟩
  · intro hget hnotuniq
    unfold kotlinRegisterCall
    rw [hget]
    cases hm : kotlinSuffixMatches ctx.symbol_lookup called with
    | nil =>
      refine ⟨by split_ifs <;> rfl, ?_, ?_⟩
      · intro hp
        rw [if_pos hp]
      · intro hp
        rw [if_neg hp]
        exact ⟨rfl, rfl⟩
    | cons s tl =>
      cases tl with
      | nil => exact absurd hm (hnotuniq s)
      | cons b rest =>
        refine ⟨by split_ifs <;> rfl, ?_, ?_⟩
        · intro hp
          rw [if_pos hp]
        · intro hp
          rw [if_neg hp]
          exact ⟨rfl, rfl⟩
  · intro hnone
    unfold goRegisterCalled
    have hid : ∀ kv ∈ syms, (fun kv : String × SymbolInfo =>
        if pyIn cf (lastSegment kv.1) && !(kv.2.called_by.contains cur) then
          (kv.1, { kv.2 with called_by := kv.2.called_by ++ [cur] })
        else kv) kv = id kv := by
      intro kv hkv
      rcases kv with ⟨sid, info⟩
      have hcond : (pyIn cf (lastSegment sid) && !(info.called_by.contains cur))
          = false := by rw [hnone sid info hkv]; rfl
      show (if pyIn cf (lastSegment sid) && !(info.called_by.contains cur) then
          _ else _) = _
      rw [if_neg (by rw [hcond]; decide)]
      rfl
    rw [List.map_congr_left hid, List.map_id]

theorem claim2_witness :
    ("a.kt::f",
      ({ type := "function", file := "a.kt", line := 1,
         called_by := ["a.kt::g"] } : SymbolInfo)) ∈
        (kotlinRegisterCall
          ⟨[("a.kt::f", { type := "function", file := "a.kt", line := 1 })],
           [("f", "a.kt::f")], [], []⟩ "a.kt::g" "f").symbols
    ∧ (("a.kt::f",
        ({ type := "function", file := "a.kt", line := 1,
           called_by := ["a.kt::g"] } : SymbolInfo)) ∈
          ([("a.kt::f", { type := "function", file := "a.kt", line := 1 })] :
            List (String × SymbolInfo)) ∨
       ∃ old, ("a.kt::f", old) ∈
            ([("a.kt::f", { type := "function", file := "a.kt", line := 1 })] :
              List (String × SymbolInfo))
          ∧ ({ type := "function", file := "a.kt", line := 1,
               called_by := ["a.kt::g"] } : SymbolInfo) =
              { old with called_by := old.called_by ++ ["a.kt::g"] }
          ∧ (pyDictGet [("f", "a.kt::f")] "f" = some "a.kt::f" ∨
              (pyDictGet [("f", "a.kt::f")] "f" = none ∧
                kotlinSuffixMatches [("f", "a.kt::f")] "f" = ["a.kt::f"]))) :=
  ⟨by decide,
    (claim2_amended_attachment
        ⟨[("a.kt::f", { type := "function", file := "a.kt", line := 1 })],
         [("f", "a.kt::f")], [], []⟩ "a.kt::g" "f" [] "x" "y" "p.go" "").1
      "a.kt::f"
      { type := "function", file := "a.kt", line := 1, called_by := ["a.kt::g"] }
      (by decide)⟩

/-! ## Claim C3: import deduplication -/

theorem pyDedupAux_sublist [DecidableEq α] :
    ∀ (l seen : List α), (pyDedupAux l seen).Sublist l := by
  intro l
  induction l with
  | nil => intro seen; exact List.Sublist.refl _
  | cons x xs ih =>
    intro seen
    unfold pyDedupAux
    split_ifs
    · exact (ih _).cons _
    · exact (ih _).cons₂ _

theorem pyDedupAux_mem_not_seen [DecidableEq α] :
    ∀ (l seen : List α) (x : α), x ∈ pyDedupAux l seen → x ∉ seen := by
  intro l
  induction l with
  | nil => intro seen x hx; simp [pyDedupAux] at hx
  | cons y ys ih =>
    intro seen x hmem
    unfold pyDedupAux at hmem
    split_ifs at hmem with hy
    · exact ih _ _ hmem
    · rcases List.mem_cons.mp hmem with rfl | h
      · exact hy
      · intro hx
        exact ih _ _ h (List.mem_cons_of_mem _ hx)

theorem pyDedupAux_nodup [DecidableEq α] :
    ∀ (l seen : List α), (pyDedupAux l seen).Nodup := by
  intro l
  induction l with
  | nil => intro seen; exact List.nodup_nil
  | cons x xs ih =>
    intro seen
    unfold pyDedupAux
    split_ifs
    · exact ih _
    · exact List.Nodup.cons
        (fun hmem => pyDedupAux_mem_not_seen _ _ _ hmem (List.mem_cons_self _ _))
        (ih _)

theorem pyDedupAux_mem_of [DecidableEq α] :
    ∀ (l seen : List α) (x : α), x ∈ l → x ∉ seen → x ∈ pyDedupAux l seen := by
  intro l
  induction l with
  | nil => intro seen x hx; simp at hx
  | cons y ys ih =>
    intro seen x hx hseen
    unfold pyDedupAux
    split_ifs with hy
    · rcases List.mem_cons.mp hx with rfl | h
      · exact absurd hy hseen
      · exact ih _ _ h hseen
    · rcases List.mem_cons.mp hx with rfl | h
      · exact List.mem_cons_self _ _
      · by_cases hxy : x = y
        · rw [hxy]; exact List.mem_cons_self _ _
        · exact List.mem_cons_of_mem _
            (ih _ _ h (fun hm => (List.mem_cons.mp hm).elim hxy hseen))

/-- The deduplicated list is ordered by the position of each element's
first occurrence in the scanned list. -/
theorem pyDedupAux_pairwise_indexOf [DecidableEq α] :
    ∀ (l seen : List α), List.Pairwise
      (fun x y => List.indexOf x l < List.indexOf y l) (pyDedupAux l seen) := by
  intro l
  induction l with
  | nil => intro seen; exact List.Pairwise.nil
  | cons a as ih =>
    intro seen
    unfold pyDedupAux
    split_ifs with ha
    · refine List.Pairwise.imp_of_mem ?_ (ih seen)
      intro x y hx hy hxy
      have hxa : a ≠ x := fun he =>
        pyDedupAux_mem_not_seen as seen x hx (he ▸ ha)
      have hya : a ≠ y := fun he =>
        pyDedupAux_mem_not_seen as seen y hy (he ▸ ha)
      rw [List.indexOf_cons_ne as hxa, List.indexOf_cons_ne as hya]
      exact Nat.succ_lt_succ hxy
    · refine List.Pairwise.cons ?_ ?_
      · intro y hy
        have hya : a ≠ y := fun he =>
          pyDedupAux_mem_not_seen as (a :: seen) y hy
            (he ▸ List.mem_cons_self a seen)
        rw [List.indexOf_cons_self, List.indexOf_cons_ne as hya]
        exact Nat.succ_pos _
      · refine List.Pairwise.imp_of_mem ?_ (ih (a :: seen))
        intro x y hx hy hxy
        have hxa : a ≠ x := fun he =>
          pyDedupAux_mem_not_seen as (a :: seen) x hx
            (he ▸ List.mem_cons_self a seen)
        have hya : a ≠ y := fun he =>
          pyDedupAux_mem_not_seen as (a :: seen) y hy
            (he ▸ List.mem_cons_self a seen)
        rw [List.indexOf_cons_ne as hxa, List.indexOf_cons_ne as hya]
        exact Nat.succ_lt_succ hxy

/-- One `parse_file` line leaves the Go imports list unchanged or appends
exactly one entry at the end — never removing, reordering, or checking
for an existing occurrence. -/
theorem goParseLine_imports_append (filePath : String) (lines : List String)
    (st : GoParseSt) (i : Nat) (rawLine : String) :
    (goParseLine filePath lines st i rawLine).imports = st.imports ∨
    ∃ imp, (goParseLine filePath lines st i rawLine).imports =
      st.imports ++ [imp] := by
  unfold goParseLine
  dsimp only
  repeat'
    first
    | exact Or.inl rfl
    | exact Or.inr ⟨_, rfl⟩
    | split

/-- C3, counterexample: the Go strategy appends every import occurrence,
so a Go file repeating an import path lists it twice. -/
theorem claim3_counterexample :
    (goParseFile "m.go" "import \"fmt\"\nimport \"fmt\"").2.imports = ["fmt", "fmt"]
    ∧ ¬ (["fmt", "fmt"] : List String).Nodup := by
  constructor
  · decide
  · decide

/-- C3, amended: the Kotlin strategy's lexical import scan keeps exactly
the first occurrence of each import in source order — the output is a
duplicate-free sublist of the raw scan, contains every scanned import,
and is ordered by the position of each import's first occurrence; the
Go strategy is append-only on imports (each line appends at most one
entry at the end, never removing or checking for duplicates), so a
repeated import path stays repeated, as the counterexample shows. -/
theorem claim3_amended_kotlin_dedup (content : String) :
    (kotlinImportsFallback content).Nodup
    ∧ (kotlinImportsFallback content).Sublist (kotlinImportScan (pySplitlines content))
    ∧ (∀ x ∈ kotlinImportScan (pySplitlines content),
        x ∈ kotlinImportsFallback content)
    ∧ List.Pairwise
        (fun x y => List.indexOf x (kotlinImportScan (pySplitlines content)) <
          List.indexOf y (kotlinImportScan (pySplitlines content)))
        (kotlinImportsFallback content)
    ∧ (∀ (filePath : String) (lines : List String) (st : GoParseSt) (i : Nat)
        (rawLine : String),
        (goParseLine filePath lines st i rawLine).imports = st.imports ∨
        ∃ imp, (goParseLine filePath lines st i rawLine).imports =
          st.imports ++ [imp]) :=
  ⟨pyDedupAux_nodup _ _, pyDedupAux_sublist _ _,
    fun x hx => pyDedupAux_mem_of _ _ x hx (List.not_mem_nil x),
    pyDedupAux_pairwise_indexOf _ _,
    goParseLine_imports_append⟩

theorem claim3_witness :
    "a.b.C" ∈ kotlinImportsFallback "import a.b.C\nimport a.b.C\nclass X" :=
  (claim3_amended_kotlin_dedup "import a.b.C\nimport a.b.C\nclass X").2.2.1
    "a.b.C" (by decide)

/-! ## Claim C7: search pagination -/

/-- The flattened rows are lexicographically ordered by
`(path ascending, line ascending)` when the raw map has distinct paths. -/
theorem paginateRows_sorted (raw : List (String × List (Nat × String)))
    (hnodup : (raw.map Prod.fst).Nodup) :
    List.Pairwise rowLe (paginateRows raw) := by
  unfold paginateRows
  rw [List.pairwise_flatMap]
  constructor
  · intro pr _
    rw [List.pairwise_map]
    exact (List.sorted_insertionSort byLine pr.2).imp fun h => Or.inr ⟨rfl, h⟩
  · have hs : List.Sorted byPath (List.insertionSort byPath raw) :=
      List.sorted_insertionSort byPath raw
    have hn : ((List.insertionSort byPath raw).map Prod.fst).Nodup :=
      hnodup.perm ((List.perm_insertionSort byPath raw).map Prod.fst).symm
    have hlt : List.Pairwise (fun a b => a.1 < b.1)
        (List.insertionSort byPath raw) :=
      (List.Pairwise.and hs (List.pairwise_map.mp hn)).imp
        fun h => lt_of_le_of_ne h.1 h.2
    refine hlt.imp fun {pr1 pr2} h x hx y hy => Or.inl ?_
    rcases List.mem_map.mp hx with ⟨m1, _, rfl⟩
    rcases List.mem_map.mp hy with ⟨m2, _, rfl⟩
    exact h

/-- The number of flattened rows is the total number of matches. -/
theorem paginateRows_length (raw : List (String × List (Nat × String))) :
    (paginateRows raw).length = (raw.map (fun pr => pr.2.length)).sum := by
  unfold paginateRows
  rw [List.length_flatMap]
  have h1 : List.map
      (List.length ∘ fun pr : String × List (Nat × String) =>
        (List.insertionSort byLine pr.2).map fun m => (pr.1, m.1, m.2))
      (List.insertionSort byPath raw) =
      List.map (fun pr => pr.2.length) (List.insertionSort byPath raw) := by
    apply List.map_congr_left
    intro pr _
    simp only [Function.comp_apply, List.length_map]
    exact (List.perm_insertionSort byLine pr.2).length_eq
  rw [h1]
  exact ((List.perm_insertionSort byPath raw).map fun pr => pr.2.length).sum_eq

/-- C7: the pagination helper returns rows flattened in lexicographic
`(path, line)` order, slices them to `[start, start + max_results)`
(no upper bound when `max_results` is `None`), reports the total number
of matches, sets `has_more` iff `end_index < total_matches`, and clips
`start_index` to `total_matches` with empty rows when the start is past
the end. -/
theorem claim7_pagination (raw : List (String × List (Nat × String)))
    (start : Nat) (maxResults : Option Nat)
    (hnodup : (raw.map Prod.fst).Nodup) :
    List.Pairwise rowLe (paginateRows raw)
    ∧ (paginateResults raw start maxResults).2.total_matches =
        (raw.map (fun pr => pr.2.length)).sum
    ∧ (maxResults = none → start ≤ (paginateRows raw).length →
        (paginateResults raw start maxResults).1 = (paginateRows raw).drop start)
    ∧ (∀ m, maxResults = some m → start ≤ (paginateRows raw).length →
        (paginateResults raw start maxResults).1 =
          ((paginateRows raw).drop start).take m)
    ∧ ((paginateResults raw start maxResults).2.has_more = true ↔
        (paginateResults raw start maxResults).2.end_index <
          (paginateResults raw start maxResults).2.total_matches)
    ∧ ((paginateRows raw).length ≤ start →
        (paginateResults raw start maxResults).1 = []
        ∧ (paginateResults raw start maxResults).2.start_index =
            (paginateResults raw start maxResults).2.total_matches
        ∧ (paginateResults raw start maxResults).2.end_index =
            (paginateResults raw start maxResults).2.total_matches) := by
  refine ⟨paginateRows_sorted raw hnodup, paginateRows_length raw, ?_, ?_, ?_, ?_⟩
  · intro hnone hle
    subst hnone
    show ((paginateRows raw).drop (min start (paginateRows raw).length)).take
      ((paginateRows raw).length - min start (paginateRows raw).length) = _
    rw [min_eq_left hle]
    apply List.take_of_length_le
    rw [List.length_drop]
  · intro m hm hle
    subst hm
    show ((paginateRows raw).drop (min start (paginateRows raw).length)).take
      (min (min start (paginateRows raw).length + m) (paginateRows raw).length
        - min start (paginateRows raw).length) = _
    rw [min_eq_left hle]
    apply List.take_eq_take.mpr
    rw [List.length_drop]
    omega
  · exact decide_eq_true_iff
  · intro hge
    refine ⟨?_, min_eq_right hge, ?_⟩
    · show ((paginateRows raw).drop (min start (paginateRows raw).length)).take _ = []
      rw [min_eq_right hge, List.drop_length]
      simp
    · cases maxResults with
      | none => rfl
      | some m =>
        show min (min start (paginateRows raw).length + m) (paginateRows raw).length
          = (paginateRows raw).length
        rw [min_eq_right hge]
        exact min_eq_right (by omega)

theorem claim7_witness :
    ((([("b/file.py", [(12, "second match"), (3, "first match")]),
        ("a/file.py", [(8, "another file")])] :
          List (String × List (Nat × String))).map Prod.fst).Nodup)
    ∧ (paginateResults
        [("b/file.py", [(12, "second match"), (3, "first match")]),
         ("a/file.py", [(8, "another file")])] 0 none).1 =
      paginateRows
        [("b/file.py", [(12, "second match"), (3, "first match")]),
         ("a/file.py", [(8, "another file")])] :=
  ⟨by decide,
    by
      have h := (claim7_pagination
        [("b/file.py", [(12, "second match"), (3, "first match")]),
         ("a/file.py", [(8, "another file")])] 0 none (by decide)).2.2.1
        rfl (Nat.zero_le _)
      rw [h, List.drop_zero]⟩

end CodeIndex
